import Mathlib

/-!
Verification of the meetcute-backend environment-configuration manager and
database bootstrap scripts against their natural-language specification.

The JavaScript sources are shallowly embedded:

* `backend/scripts/env-manager.js` — env-file parsing/serialization, the
  required-key validator, the masking list view, and the interactive menu
  session (modelled as a function over the list of console input lines).
* `backend/scripts/initDb.js` — the one-shot bootstrap orchestrator
  (`main`), with external effects (connect outcome, catalog query, create
  statement, migration and seed subprocesses) supplied by an explicit
  world record, and the observable resource/exit behaviour returned as an
  event trace.
* the pool module appended to `backend/README.md` (`getDbConfig`,
  `initializeDatabase`) — modelled with URL parsing abstracted as a
  function argument and query outcomes supplied by a world record.

JavaScript string operations (`trim`, `split`, `join`, `toUpperCase`,
`includes`, `startsWith`, truthiness) are re-implemented by structural
recursion on `List Char` so that every definition reduces inside the
kernel.  `process.exit(n)` terminates the Node.js process immediately:
pending `finally` blocks do NOT run after it, and the embedding of each
`try/catch/finally` reflects that semantics.
-/

namespace MeetCute

/-- Whitespace as recognised by JavaScript `String.prototype.trim`
(restricted to the code points that can realistically occur in the data
handled by these scripts). -/
def jsWhitespace (c : Char) : Bool :=
  c = ' ' || c = '\t' || c = '\n' || c = '\r' || c = '\x0b' || c = '\x0c'

/-- Drop leading and trailing whitespace, as JavaScript `trim()`. -/
def jsTrim (l : List Char) : List Char :=
  ((l.dropWhile jsWhitespace).reverse.dropWhile jsWhitespace).reverse

/-- `trim()` on a `String`. -/
def jsTrimStr (s : String) : String :=
  ⟨jsTrim s.data⟩

/-- JavaScript `str.split(sep)` for a one-character separator: always
returns at least one (possibly empty) chunk, and returns an empty chunk
between consecutive separators and at the ends. -/
def splitOnChar : List Char → Char → List (List Char)
  | [], _ => [[]]
  | c :: cs, sep =>
    if c = sep then
      [] :: splitOnChar cs sep
    else
      match splitOnChar cs sep with
      | [] => [[c]]
      | chunk :: rest => (c :: chunk) :: rest

/-- JavaScript `parts.join(sep)` for a one-character separator. -/
def joinChar (sep : Char) : List (List Char) → List Char
  | [] => []
  | [l] => l
  | l :: ls => l ++ sep :: joinChar sep ls

/-- JavaScript `str.startsWith(pat)`. -/
def jsStartsWith : List Char → List Char → Bool
  | [], _ => true
  | _ :: _, [] => false
  | p :: ps, c :: cs => p = c && jsStartsWith ps cs

/-- JavaScript `str.includes(pat)` (substring containment). -/
def jsIncludes (pat : List Char) : List Char → Bool
  | [] => pat.isEmpty
  | c :: cs => jsStartsWith pat (c :: cs) || jsIncludes pat cs

/-- JavaScript `toUpperCase()` (ASCII range, which covers the keys these
scripts handle). -/
def jsToUpper (s : String) : String :=
  ⟨s.data.map Char.toUpper⟩

/-- JavaScript `toLowerCase()` (ASCII range). -/
def jsToLower (s : String) : String :=
  ⟨s.data.map Char.toLower⟩

/-- Truthiness of a JavaScript string: falsy exactly when empty. -/
def jsTruthy (s : String) : Bool :=
  s ≠ ""

/-!
## ConfigurationMap

A JavaScript object holding string keys and string values, represented by
its `Object.entries` list: insertion-ordered association list with unique
keys (the scripts only ever build objects through `env[key] = value`, so
key uniqueness is an invariant of the representation).
-/

/-- The in-memory configuration map: `Object.entries` of the `env` object. -/
abbrev Env : Type := List (String × String)

/-- Property read `env[key]`, as an `Option` (`none` models `undefined`). -/
def envGet (env : Env) (key : String) : Option String :=
  (List.find? (fun p => p.1 == key) env).map (fun p => p.2)

/-- Property write `env[key] = value`: overwrite in place when the key is
present, append otherwise (JavaScript objects keep the original insertion
position on overwrite). -/
def envSet (env : Env) (key value : String) : Env :=
  if List.any env (fun p => p.1 == key) then
    List.map (fun p => if p.1 == key then (key, value) else p) env
  else
    env ++ [(key, value)]

/-- Property delete `delete env[key]`. -/
def envDelete (env : Env) (key : String) : Env :=
  List.filter (fun p => !(p.1 == key)) env

/-- `env.hasOwnProperty(key)`. -/
def envHas (env : Env) (key : String) : Bool :=
  List.any env (fun p => p.1 == key)

/-!
## EnvStore — `parseEnvFile` / `stringifyEnv` (env-manager.js 42-65)
-/

/-- One iteration of the `for (const line of lines)` loop of
`parseEnvFile`: trim the line, skip it when blank or when it starts with
`#`, otherwise split on `=`, rejoin the tail as the value, trim the value,
and store the entry when the key part is non-empty. -/
def parseEnvLine (env : Env) (line : List Char) : Env :=
  let trimmed := jsTrim line
  if trimmed = [] then env
  else if jsStartsWith ['#'] trimmed then env
  else
    match splitOnChar trimmed '=' with
    | [] => env
    | key :: valueParts =>
      let value := jsTrim (joinChar '=' valueParts)
      if key = [] then env else envSet env ⟨key⟩ ⟨value⟩

/-- `parseEnvFile(content)`: split the content on newlines and fold the
per-line step over an initially empty object. -/
def parseEnvFile (content : String) : Env :=
  List.foldl parseEnvLine [] (splitOnChar content.data '\n')

/-- `stringifyEnv(env)`: one `KEY=VALUE` line per entry, joined with
newlines, with a final trailing newline
(`entries.map(...).join('\n') + '\n'`). -/
def stringifyEnv (env : Env) : String :=
  ⟨joinChar '\n' (List.map (fun p => p.1.data ++ '=' :: p.2.data) env) ++ ['\n']⟩

/-!
## ConfigValidator — `validateConfig` (env-manager.js 214-247)
-/

/-- The fixed required-key policy of `validateConfig`. -/
def requiredConfigVars : List String :=
  ["NODE_ENV", "PORT", "JWT_SECRET", "FRONTEND_URL",
   "DB_HOST", "DB_PORT", "DB_NAME", "DB_USER", "DB_PASSWORD"]

/-- The `!env[key]` test of the validator loop: the read is falsy when
the property is absent (`undefined`) or holds the empty string. -/
def envTruthyAt (env : Env) (key : String) : Bool :=
  match envGet env key with
  | none => false
  | some v => jsTruthy v

/-- `validateConfig(env)`: walk the required keys in order, collecting the
falsy ones into `missing` and clearing `isValid`; returns
`(isValid, missing)`.  The source only reads `env`, so the embedding is a
pure function of it. -/
def validateConfig (env : Env) : Bool × List String :=
  List.foldl
    (fun acc key => if envTruthyAt env key then acc else (false, acc.2 ++ [key]))
    (true, []) requiredConfigVars

/-!
## Sensitive-key classifier and the two list views (env-manager.js 134-150, 249-261)
-/

/-- The masking pattern list of `listVariables`. -/
def sensitivePatterns : List String :=
  ["PASSWORD", "SECRET", "KEY", "TOKEN"]

/-- `sensitive.some(s => key.toUpperCase().includes(s))`. -/
def isSensitive (key : String) : Bool :=
  List.any sensitivePatterns (fun s => jsIncludes s.data (jsToUpper key).data)

/-- The fixed mask token shown for sensitive values. -/
def maskToken : String := "********"

/-- The line `listVariables` prints for one entry. -/
def listEntryLine (p : String × String) : String :=
  "  " ++ p.1 ++ "=" ++ (if isSensitive p.1 then maskToken else p.2)

/-- The console lines produced by `listVariables(env)` (headers included;
`console.log('\n...')` rendered as its argument). -/
def listVariablesOutput (env : Env) : List String :=
  ["\nCurrent environment variables:", "-" ++ String.mk (List.replicate 58 '-')] ++
    (if env.isEmpty then ["  No environment variables set."]
     else List.map listEntryLine env)

/-- The console lines produced by `showSensitiveValues(env)` (unmasked). -/
def showSensitiveOutput (env : Env) : List String :=
  ["\nCurrent environment variables (including sensitive values):",
   "-" ++ String.mk (List.replicate 78 '-')] ++
    (if env.isEmpty then ["  No environment variables set."]
     else List.map (fun p => "  " ++ p.1 ++ "=" ++ p.2) env)

/-!
## Interactive prompts and the menu actions (env-manager.js 30-40, 152-212)

Console interaction is embedded by passing the pending input lines as an
explicit list; an action consumes a prefix of it.  `none` models a session
blocked forever on a read (input script exhausted) — the claims only speak
about runs that complete.
-/

/-- `askQuestion(question, defaultValue)` applied to the raw line `raw`
typed by the operator: `answer.trim() || defaultValue`. -/
def askAnswer (raw defaultValue : String) : String :=
  if jsTrimStr raw = "" then defaultValue else jsTrimStr raw

/-- `currentValue = env[key] || ''`. -/
def jsOrEmpty (o : Option String) : String :=
  match o with
  | none => ""
  | some v => if v = "" then "" else v

/-- Outcome reported by one `updateVariable` run (which warning fired, or
which key was updated to which value). -/
inductive UpdOutcome where
  | warnEmptyKey
  | warnEmptyValue
  | updated (key value : String)
  deriving DecidableEq, Repr

/-- `updateVariable(env)`: prompt for a key (abort on empty), compute
`currentValue = env[key] || ''`, prompt for the value with `currentValue`
as the prompt default, abort when the resulting value is empty, else
assign.  Returns the new map, the outcome, and the unconsumed input. -/
def updateVariable (env : Env) (inputs : List String) :
    Option (Env × UpdOutcome × List String) :=
  match inputs with
  | [] => none
  | keyRaw :: rest =>
    let key := askAnswer keyRaw ""
    if key = "" then some (env, .warnEmptyKey, rest)
    else
      match rest with
      | [] => none
      | valRaw :: rest2 =>
        let currentValue := jsOrEmpty (envGet env key)
        let value := askAnswer valRaw currentValue
        if value = "" then some (env, .warnEmptyValue, rest2)
        else some (envSet env key value, .updated key value, rest2)

/-- `removeVariable(env)`: prompt for a key; delete when present, warn
otherwise. -/
def removeVariable (env : Env) (inputs : List String) :
    Option (Env × List String) :=
  match inputs with
  | [] => none
  | keyRaw :: rest =>
    let key := askAnswer keyRaw ""
    if key = "" then some (env, rest)
    else if envHas env key then some (envDelete env key, rest)
    else some (env, rest)

/-- `importFromExample(env)`: parse the template file (when it exists) and
copy over every entry whose key is not already present. -/
def importFromExample (env : Env) (exampleFile : Option String) : Env :=
  match exampleFile with
  | none => env
  | some content =>
    List.foldl
      (fun e p => if envHas e p.1 then e else envSet e p.1 p.2)
      env (parseEnvFile content)

/-!
## The menu session (env-manager.js 94-132, 263-282)
-/

/-- Observable calls of the menu session that the claims speak about. -/
inductive SessionEvent where
  | saveEnvCall
  | readlineClose
  deriving DecidableEq, Repr

/-- Result of one `showMenu(env)` iteration: the possibly mutated map, the
unconsumed input, the `{save, exit}` record returned to `main`, and the
trimmed choice string that was entered. -/
structure MenuStep where
  env : Env
  rest : List String
  save : Bool
  exit : Bool
  choice : String
  deriving DecidableEq, Repr

/-- `showMenu(env)`: read one choice; `s` and `q` return exit records
without touching the map; digits 1-6 dispatch to the matching action and
return a non-exit record; anything else warns and loops. -/
def showMenu (env : Env) (exampleFile : Option String) (inputs : List String) :
    Option MenuStep :=
  match inputs with
  | [] => none
  | choiceRaw :: rest =>
    let choice := askAnswer choiceRaw ""
    if choice = "s" then some ⟨env, rest, true, true, choice⟩
    else if choice = "q" then some ⟨env, rest, false, true, choice⟩
    else if choice = "1" then some ⟨env, rest, false, false, choice⟩
    else if choice = "2" then
      (updateVariable env rest).map (fun r => ⟨r.1, r.2.2, false, false, choice⟩)
    else if choice = "3" then
      (removeVariable env rest).map (fun r => ⟨r.1, r.2, false, false, choice⟩)
    else if choice = "4" then some ⟨importFromExample env exampleFile, rest, false, false, choice⟩
    else if choice = "5" then some ⟨env, rest, false, false, choice⟩
    else if choice = "6" then some ⟨env, rest, false, false, choice⟩
    else some ⟨env, rest, false, false, choice⟩

/-- Final state of a completed menu session. -/
structure SessionResult where
  env : Env
  disk : Option String
  events : List SessionEvent
  exitChoice : String
  deriving DecidableEq, Repr

/-- The `while (!shouldExit)` loop of `main`: run `showMenu` until an exit
record comes back; on `save=true` call `saveEnv` (serialize the map to the
`.env` file), then close the readline interface.  `fuel` bounds the number
of iterations; every iteration consumes at least one input line, so a fuel
of `inputs.length` is always sufficient. -/
def runSession (fuel : Nat) (env : Env) (disk : Option String)
    (exampleFile : Option String) (inputs : List String) :
    Option SessionResult :=
  match fuel with
  | 0 => none
  | fuel + 1 =>
    match showMenu env exampleFile inputs with
    | none => none
    | some step =>
      if step.exit then
        if step.save then
          some ⟨step.env, some (stringifyEnv step.env),
                [.saveEnvCall, .readlineClose], step.choice⟩
        else
          some ⟨step.env, disk, [.readlineClose], step.choice⟩
      else
        runSession fuel step.env disk exampleFile step.rest

/-!
## initDb.js — `createDatabase` (69-94) and the orchestrator `main` (124-168)
-/

instance {ε α : Type} [DecidableEq ε] [DecidableEq α] : DecidableEq (Except ε α) := fun a b =>
  match a, b with
  | .ok x, .ok y =>
    if h : x = y then .isTrue (by rw [h]) else .isFalse (by intro he; cases he; exact h rfl)
  | .error x, .error y =>
    if h : x = y then .isTrue (by rw [h]) else .isFalse (by intro he; cases he; exact h rfl)
  | .ok _, .error _ => .isFalse (by intro h; cases h)
  | .error _, .ok _ => .isFalse (by intro h; cases h)

/-- Outcomes of the two queries `createDatabase` can issue against the
administrative connection: the catalog probe
(`SELECT 1 FROM pg_database WHERE datname = $1`, returning whether a row
was found, or throwing) and the `CREATE DATABASE` statement (succeeding or
throwing). -/
structure PgProvision where
  existsQuery : Except String Bool
  createQuery : Except String Unit
  deriving DecidableEq, Repr

/-- `createDatabase(client)`: check-then-create inside one `try`; any
thrown error is caught and the function returns `false`; `true` is
returned when the catalog row is found or the create succeeds. -/
def createDatabase (pg : PgProvision) : Bool :=
  match pg.existsQuery with
  | .error _ => false
  | .ok true => true
  | .ok false =>
    match pg.createQuery with
    | .ok _ => true
    | .error _ => false

/-- External outcomes driving one run of initDb `main`: whether the
administrative connect succeeds, the provisioning query outcomes, the
migration subprocess outcome, the raw answer to the seed prompt, and the
seed subprocess outcome. -/
structure InitDbWorld where
  connectOk : Bool
  pg : PgProvision
  migrateOk : Bool
  seedAnswer : String
  seedOk : Bool
  deriving DecidableEq, Repr

/-- Resource-release and process-termination events of initDb `main`. -/
inductive InitDbEvent where
  | clientEnd
  | readlineClose
  | processExit (code : Nat)
  deriving DecidableEq, Repr

/-- `main()` of initDb.js as an event trace.  Node.js semantics:
`process.exit(1)` terminates the process at once, so when it is called
from the `catch` block the `finally` block (`client.end()`;
`readline.close()`) never runs; the `finally` block runs only when the
`try` block completes, i.e. on the success paths. -/
def initDbMain (w : InitDbWorld) : List InitDbEvent :=
  if !w.connectOk then [.processExit 1]
  else if !createDatabase w.pg then [.processExit 1]
  else if !w.migrateOk then [.processExit 1]
  else if jsToLower (jsTrimStr w.seedAnswer) = "y" then
    if !w.seedOk then [.processExit 1]
    else [.clientEnd, .readlineClose]
  else [.clientEnd, .readlineClose]

/-!
## The pool module appended to backend/README.md — `getDbConfig` and the
connection initializer (README.md 133-204)
-/

/-- The components of a WHATWG `URL` object that `getDbConfig` reads
(`url.port` is the empty string when the URL specifies no port). -/
structure UrlParts where
  username : String
  password : String
  hostname : String
  port : String
  pathname : String
  deriving DecidableEq, Repr

/-- A JavaScript value that is either a string or a number (the `port`
field mixes `url.port`/`env.DB_PORT` strings with the numeric default
`5432` via `||`). -/
inductive JsVal where
  | str (s : String)
  | num (n : Nat)
  deriving DecidableEq, Repr

/-- `s || n`: the string when truthy, the numeric default otherwise. -/
def jsOrNum (s : String) (n : Nat) : JsVal :=
  if s = "" then .num n else .str s

/-- The connection descriptor built by `getDbConfig` (`ssl` is `true` for
the `{ rejectUnauthorized: false }` object and `false` for literal
`false`). -/
structure DbConfig where
  user : String
  password : String
  host : String
  port : JsVal
  database : String
  ssl : Bool
  deriving DecidableEq, Repr

/-- The process environment slice `getDbConfig` reads. -/
structure ProcEnv where
  databaseUrl : Option String
  nodeEnv : Option String
  deriving DecidableEq, Repr

/-- The values exported by the `./env` module (discrete DB fields; absent
values are modelled as the empty string, which `||` treats identically). -/
structure EnvModule where
  dbUser : String
  dbHost : String
  dbName : String
  dbPassword : String
  dbPort : String
  deriving DecidableEq, Repr

/-- `process.env.NODE_ENV === 'production'`. -/
def isProduction (pe : ProcEnv) : Bool :=
  pe.nodeEnv == some "production"

/-- `url.pathname.replace(/^\//, '')`: strip one leading slash. -/
def stripLeadingSlash (p : String) : String :=
  match p.data with
  | '/' :: rest => ⟨rest⟩
  | l => ⟨l⟩

/-- The discrete-field fallback descriptor of `getDbConfig`. -/
def discreteConfig (pe : ProcEnv) (em : EnvModule) : DbConfig :=
  { user := em.dbUser
    host := em.dbHost
    database := em.dbName
    password := em.dbPassword
    port := jsOrNum em.dbPort 5432
    ssl := isProduction pe }

/-- `getDbConfig()`: when `process.env.DATABASE_URL` is truthy, parse it
with `new URL` (abstracted as the `parseURL` argument; a parse failure
makes the process exit with status 1, modelled as `none`) and build the
descriptor from the URL parts; otherwise fall back to the discrete
`./env` fields.  TLS is enabled in both branches exactly when
`NODE_ENV === 'production'`. -/
def getDbConfig (pe : ProcEnv) (em : EnvModule)
    (parseURL : String → Option UrlParts) : Option DbConfig :=
  match pe.databaseUrl with
  | some s =>
    if s = "" then some (discreteConfig pe em)
    else
      match parseURL s with
      | none => none
      | some url =>
        some { user := url.username
               password := url.password
               host := url.hostname
               port := jsOrNum url.port 5432
               database := stripLeadingSlash url.pathname
               ssl := isProduction pe }
  | none => some (discreteConfig pe em)

/-- External outcomes driving the pool module's connection initializer:
whether `DATABASE_URL` is set (truthy), the error code of the liveness
query (`none` means `SELECT NOW()` succeeded), the outcome of the
`CREATE DATABASE` statement, and the target database name. -/
structure PoolInitWorld where
  hasDatabaseUrl : Bool
  pingErrorCode : Option String
  createError : Option String
  dbName : String
  deriving DecidableEq, Repr

/-- Observable events of the connection initializer. -/
inductive PoolInitEvent where
  | connected
  | adminPoolOpen (db : String)
  | createDbIssued (name : String)
  | adminPoolEnd
  | processExit (code : Nat)
  deriving DecidableEq, Repr

/-- `initializeDatabase()` of the pool module as an event trace.  A failed
liveness query with vendor code `3D000` (database missing) exits fatally
under `DATABASE_URL`, and otherwise opens a second pool against the
default `postgres` database and issues `CREATE DATABASE`; any other error
code is fatal.  As in initDb.js, `process.exit(1)` inside the inner
`catch` prevents the inner `finally` (`pgPool.end()`) from running. -/
def initDatabase (w : PoolInitWorld) : List PoolInitEvent :=
  match w.pingErrorCode with
  | none => [.connected]
  | some code =>
    if code = "3D000" then
      if w.hasDatabaseUrl then [.processExit 1]
      else
        match w.createError with
        | none => [.adminPoolOpen "postgres", .createDbIssued w.dbName, .adminPoolEnd]
        | some _ => [.adminPoolOpen "postgres", .createDbIssued w.dbName, .processExit 1]
    else [.processExit 1]

/-!
## Validity predicates used by the round-trip claims

`claimValidKey`/`claimValidValue` transcribe the validity condition exactly
as the specification states it ("keys non-empty without `=` or leading
`#`, values without newlines or surrounding whitespace"); `validKeyChars`
strengthens the key condition with the extra requirements the code forces
(no newline inside the key, no leading whitespace).
-/

/-- Key validity as the specification words it: non-empty, no `=`, not
beginning with `#`. -/
def claimValidKey (k : String) : Bool :=
  k ≠ "" && !k.data.contains '=' && !jsStartsWith ['#'] k.data

/-- Value validity as the specification words it: no newline, no
surrounding whitespace (trim-invariant). -/
def claimValidValue (v : String) : Bool :=
  !v.data.contains '\n' && (jsTrim v.data == v.data)

/-- Key validity actually required for the serialization round trip:
additionally no newline inside the key and no leading whitespace. -/
def validKeyChars : List Char → Bool
  | [] => false
  | c :: cs =>
    !jsWhitespace c && c ≠ '#' && !(c :: cs).contains '=' && !(c :: cs).contains '\n'

/-!
## Helper lemmas about the character-level string operations
-/

theorem stringMk_data (s : String) : String.mk s.data = s := rfl

theorem splitOnChar_cons (c : Char) (l : List Char) (sep : Char) :
    splitOnChar (c :: l) sep =
      if c = sep then [] :: splitOnChar l sep
      else
        match splitOnChar l sep with
        | [] => [[c]]
        | chunk :: rest => (c :: chunk) :: rest := rfl

theorem splitOnChar_ne_nil (l : List Char) (sep : Char) : splitOnChar l sep ≠ [] := by
  cases l with
  | nil => simp [splitOnChar]
  | cons c cs =>
    rw [splitOnChar_cons]
    split
    · simp
    · split <;> simp

theorem splitOnChar_append_cons (k rest : List Char) (sep : Char) (h : sep ∉ k) :
    splitOnChar (k ++ sep :: rest) sep = k :: splitOnChar rest sep := by
  induction k with
  | nil => simp [splitOnChar]
  | cons c cs ih =>
    have hc : c ≠ sep := by
      intro he; exact h (he ▸ List.mem_cons_self c cs)
    have hcs : sep ∉ cs := fun hm => h (List.mem_cons_of_mem c hm)
    rw [List.cons_append, splitOnChar_cons, if_neg hc, ih hcs]

theorem splitOnChar_no_sep (l : List Char) (sep : Char) (h : sep ∉ l) :
    splitOnChar l sep = [l] := by
  induction l with
  | nil => rfl
  | cons c cs ih =>
    have hc : c ≠ sep := by
      intro he; exact h (he ▸ List.mem_cons_self c cs)
    have hcs : sep ∉ cs := fun hm => h (List.mem_cons_of_mem c hm)
    rw [splitOnChar_cons, if_neg hc, ih hcs]

theorem joinChar_cons_cons (sep : Char) (l : List Char) (l2 : List Char)
    (ls : List (List Char)) :
    joinChar sep (l :: l2 :: ls) = l ++ sep :: joinChar sep (l2 :: ls) := rfl

theorem joinChar_splitOnChar (l : List Char) (sep : Char) :
    joinChar sep (splitOnChar l sep) = l := by
  induction l with
  | nil => rfl
  | cons c cs ih =>
    simp only [splitOnChar]
    split
    · next hc =>
      subst hc
      cases hs : splitOnChar cs c with
      | nil => exact absurd hs (splitOnChar_ne_nil cs c)
      | cons chunk restChunks =>
        rw [hs] at ih
        rw [joinChar_cons_cons]
        simpa using ih
    · next hc =>
      cases hs : splitOnChar cs sep with
      | nil => exact absurd hs (splitOnChar_ne_nil cs sep)
      | cons chunk restChunks =>
        rw [hs] at ih
        cases restChunks with
        | nil =>
          simp only [joinChar] at ih ⊢
          rw [ih]
        | cons r rs =>
          rw [joinChar_cons_cons] at ih
          rw [joinChar_cons_cons]
          simp only [List.cons_append, ih]

theorem dropWhile_self_or_shorter (p : Char → Bool) (l : List Char) :
    l.dropWhile p = l ∨ (l.dropWhile p).length < l.length := by
  cases l with
  | nil => left; rfl
  | cons c cs =>
    by_cases hc : p c
    · right
      simp only [List.dropWhile, hc]
      exact Nat.lt_succ_of_le (List.dropWhile_sublist (l := cs) p).length_le
    · left
      simp [List.dropWhile, hc]

theorem dropWhile_cons_of_neg (p : Char → Bool) (c : Char) (cs : List Char)
    (h : p c = false) : (c :: cs).dropWhile p = c :: cs := by
  simp [List.dropWhile, h]

theorem jsTrim_eq_self_parts (l : List Char) (h : jsTrim l = l) :
    l.dropWhile jsWhitespace = l ∧ l.reverse.dropWhile jsWhitespace = l.reverse := by
  have hlen1 : (l.dropWhile jsWhitespace).length ≤ l.length :=
    (List.dropWhile_sublist (l := l) jsWhitespace).length_le
  have hlen2 : (jsTrim l).length ≤ (l.dropWhile jsWhitespace).length := by
    unfold jsTrim
    calc (((l.dropWhile jsWhitespace).reverse.dropWhile jsWhitespace).reverse).length
        = ((l.dropWhile jsWhitespace).reverse.dropWhile jsWhitespace).length := by
          rw [List.length_reverse]
      _ ≤ (l.dropWhile jsWhitespace).reverse.length :=
          (List.dropWhile_sublist jsWhitespace).length_le
      _ = (l.dropWhile jsWhitespace).length := by rw [List.length_reverse]
  have hfirst : l.dropWhile jsWhitespace = l := by
    rcases dropWhile_self_or_shorter jsWhitespace l with he | hlt
    · exact he
    · rw [h] at hlen2; omega
  refine ⟨hfirst, ?_⟩
  have h2 : (l.reverse.dropWhile jsWhitespace).reverse = l := by
    unfold jsTrim at h
    rw [hfirst] at h
    exact h
  calc l.reverse.dropWhile jsWhitespace
      = ((l.reverse.dropWhile jsWhitespace).reverse).reverse := by rw [List.reverse_reverse]
    _ = l.reverse := by rw [h2]

theorem dropWhile_append_of_stable (p : Char → Bool) (xs ys : List Char)
    (hne : xs ≠ []) (h : xs.dropWhile p = xs) :
    (xs ++ ys).dropWhile p = xs ++ ys := by
  cases xs with
  | nil => exact absurd rfl hne
  | cons x xs' =>
    have hx : p x = false := by
      by_contra hx
      have hx' : p x = true := by
        cases hpx : p x
        · exact absurd hpx hx
        · rfl
      have : ((x :: xs').dropWhile p).length < (x :: xs').length := by
        simp only [List.dropWhile, hx']
        exact Nat.lt_succ_of_le (List.dropWhile_sublist (l := xs') p).length_le
      rw [h] at this
      omega
    simp [List.dropWhile, hx]

theorem mem_of_mem_jsTrim (c : Char) (l : List Char) (h : c ∈ jsTrim l) : c ∈ l := by
  unfold jsTrim at h
  rw [List.mem_reverse] at h
  have h1 := (List.dropWhile_sublist (l := (l.dropWhile jsWhitespace).reverse)
    jsWhitespace).subset h
  rw [List.mem_reverse] at h1
  exact (List.dropWhile_sublist (l := l) jsWhitespace).subset h1

/-!
## Validator characterization (claim C6)
-/

theorem validateConfig_foldl (env : Env) :
    ∀ (keys : List String) (b : Bool) (acc : List String),
      List.foldl (fun acc key => if envTruthyAt env key then acc else (false, acc.2 ++ [key]))
        (b, acc) keys
      = (b && keys.all (envTruthyAt env),
         acc ++ keys.filter (fun k => !envTruthyAt env k)) := by
  intro keys
  induction keys with
  | nil => intro b acc; simp
  | cons k ks ih =>
    intro b acc
    by_cases hk : envTruthyAt env k
    · simp [List.foldl_cons, hk, ih]
    · have hk' : envTruthyAt env k = false := by
        cases h : envTruthyAt env k
        · rfl
        · exact absurd h hk
      simp [List.foldl_cons, hk', ih]

theorem not_envTruthyAt_iff (env : Env) (k : String) :
    (!envTruthyAt env k) = true ↔ (envGet env k = none ∨ envGet env k = some "") := by
  unfold envTruthyAt
  cases hg : envGet env k with
  | none => simp
  | some v =>
    by_cases hv : v = ""
    · subst hv; simp [jsTruthy]
    · simp [jsTruthy, hv]

/-- Claim C6: for every configuration map, `validateConfig` reports as
missing exactly the required keys that are absent or bound to the empty
string (in required-list order), and its validity flag is `true` exactly
when that list is empty.  The source only reads the map, so the embedding
is a pure function of it and the map is trivially unchanged. -/
theorem validateConfig_characterization :
    ∀ env : Env,
      (validateConfig env).2 = requiredConfigVars.filter (fun k => !envTruthyAt env k)
      ∧ ((validateConfig env).1 = true ↔ (validateConfig env).2 = [])
      ∧ (∀ k, k ∈ (validateConfig env).2 ↔
          k ∈ requiredConfigVars ∧ (envGet env k = none ∨ envGet env k = some "")) := by
  intro env
  have h := validateConfig_foldl env requiredConfigVars true []
  unfold validateConfig
  rw [h]
  refine ⟨by simp, ?_, ?_⟩
  · simp only [Bool.true_and, List.nil_append]
    constructor
    · intro hall
      rw [List.all_eq_true] at hall
      rw [List.filter_eq_nil_iff]
      intro k hk
      simp [hall k hk]
    · intro hnil
      rw [List.filter_eq_nil_iff] at hnil
      rw [List.all_eq_true]
      intro k hk
      have hh := hnil k hk
      rw [Bool.not_eq_true'] at hh
      cases h : envTruthyAt env k
      · exact absurd h hh
      · rfl
  · intro k
    simp only [List.nil_append, List.mem_filter]
    rw [not_envTruthyAt_iff]

/-!
## Provisioner outcome (claim C3)
-/

/-- Claim C3's counterexample: when the catalog probe finds no row and the
`CREATE DATABASE` statement then fails (the concurrent-provisioner race),
`createDatabase` returns `false` — the fatal outcome — not the benign
`true` the claim asserts. -/
theorem createDatabase_race_returns_false_cex :
    createDatabase ⟨Except.ok false, Except.error "duplicate_database"⟩ = false
    ∧ ¬(createDatabase ⟨Except.ok false, Except.error "duplicate_database"⟩ = true) := by
  decide

/-- Claim C3 amended: `createDatabase` does catch the failure (it returns
normally rather than propagating the exception), but it maps the failure
to the fatal outcome `false`; `true` is returned exactly when the catalog
probe finds the database or the create statement succeeds. -/
theorem createDatabase_true_iff :
    ∀ pg : PgProvision,
      createDatabase pg = true ↔
        (pg.existsQuery = Except.ok true
         ∨ (pg.existsQuery = Except.ok false ∧ pg.createQuery = Except.ok ())) := by
  intro pg
  obtain ⟨eq, cq⟩ := pg
  cases eq with
  | error e => simp [createDatabase]
  | ok b =>
    cases b
    · cases cq with
      | ok u => simp [createDatabase]
      | error e => simp [createDatabase]
    · simp [createDatabase]

/-!
## Bootstrap orchestrator resource release (claim C1)
-/

/-- Claim C1 fails on the code: with a successful connection and an
existing database, a failed migration run makes `main` throw into its
`catch` block, which calls `process.exit(1)`; Node terminates immediately
and the `finally` block never runs, so `client.end` is not invoked on this
exit path. -/
theorem initDbMain_migration_failure_skips_release :
    initDbMain ⟨true, ⟨Except.ok true, Except.ok ()⟩, false, "n", true⟩
      = [InitDbEvent.processExit 1]
    ∧ InitDbEvent.clientEnd
        ∉ initDbMain ⟨true, ⟨Except.ok true, Except.ok ()⟩, false, "n", true⟩ := by
  decide

/-!
## Pool-module missing-database policy (claim C4)
-/

/-- Claim C4: when the liveness query fails with vendor code `3D000`
(database missing), the URL-form configuration exits with status 1 and
never issues `CREATE DATABASE`, while the discrete-field configuration
opens an administrative pool against the default `postgres` database and
issues `CREATE DATABASE` for the target name. -/
theorem initDatabase_missing_db_policy :
    ∀ (createErr : Option String) (name : String),
      (initDatabase ⟨true, some "3D000", createErr, name⟩
          = [PoolInitEvent.processExit 1]
        ∧ ∀ n, PoolInitEvent.createDbIssued n
            ∉ initDatabase ⟨true, some "3D000", createErr, name⟩)
      ∧ (PoolInitEvent.adminPoolOpen "postgres"
            ∈ initDatabase ⟨false, some "3D000", createErr, name⟩
        ∧ PoolInitEvent.createDbIssued name
            ∈ initDatabase ⟨false, some "3D000", createErr, name⟩) := by
  intro createErr name
  cases createErr <;> simp [initDatabase]

/-!
## Lines without an equals sign (claim C2)
-/

/-- Claim C2's counterexample: the non-blank, non-comment line
`not a valid line` contains no `=`, yet `parseEnvFile` does NOT drop it —
`split('=')` returns the whole line as the (truthy) key part, so the line
contributes the entry `"not a valid line" ↦ ""`; the valid lines around
it parse normally. -/
theorem parseEnvFile_no_equals_line_cex :
    parseEnvFile "A=1\nnot a valid line\nB=2"
      = [("A", "1"), ("not a valid line", ""), ("B", "2")]
    ∧ envGet (parseEnvFile "A=1\nnot a valid line\nB=2") "not a valid line" = some ""
    ∧ parseEnvFile "A=1\nnot a valid line\nB=2" ≠ [("A", "1"), ("B", "2")] := by
  decide

/-- Claim C2 amended: a non-blank, non-comment line without `=` is not
dropped; it contributes an entry mapping the entire trimmed line to the
empty string (surrounding valid lines are unaffected since the file parse
folds this per-line step). -/
theorem parseEnvLine_no_equals_adds_empty_entry :
    ∀ (env : Env) (line : List Char),
      jsTrim line ≠ [] →
      jsStartsWith ['#'] (jsTrim line) = false →
      '=' ∉ line →
      parseEnvLine env line = envSet env ⟨jsTrim line⟩ "" := by
  intro env line h1 h2 h3
  have h4 : '=' ∉ jsTrim line := fun hm => h3 (mem_of_mem_jsTrim _ _ hm)
  unfold parseEnvLine
  rw [if_neg h1, if_neg (by rw [h2]; exact Bool.false_ne_true),
    splitOnChar_no_sep _ _ h4]
  show (if jsTrim line = [] then env
        else envSet env ⟨jsTrim line⟩ ⟨jsTrim (joinChar '=' [])⟩)
      = envSet env ⟨jsTrim line⟩ ""
  rw [if_neg h1]
  rfl

/-- Witness for the amended C2 theorem at the concrete offending line. -/
theorem parseEnvLine_no_equals_adds_empty_entry_witness :
    (jsTrim "not a valid line".data ≠ []
     ∧ jsStartsWith ['#'] (jsTrim "not a valid line".data) = false
     ∧ '=' ∉ "not a valid line".data)
    ∧ parseEnvLine [("A", "1")] "not a valid line".data
        = envSet [("A", "1")] ⟨jsTrim "not a valid line".data⟩ "" :=
  ⟨⟨by decide, by decide, by decide⟩,
   parseEnvLine_no_equals_adds_empty_entry [("A", "1")] "not a valid line".data
     (by decide) (by decide) (by decide)⟩

/-!
## Overwriting an entry with its own value (claim C10)
-/

theorem map_id_of_forall {α : Type} (f : α → α) (l : List α)
    (h : ∀ x ∈ l, f x = x) : l.map f = l := by
  induction l with
  | nil => rfl
  | cons x xs ih =>
    rw [List.map_cons, h x (List.mem_cons_self x xs),
      ih (fun y hy => h y (List.mem_cons_of_mem x hy))]

theorem envGet_some_any (env : Env) (k v : String) (h : envGet env k = some v) :
    env.any (fun p => p.1 == k) = true := by
  induction env with
  | nil => simp [envGet] at h
  | cons q rest ih =>
    cases hqk : q.1 == k
    · have hrest : envGet rest k = some v := by
        unfold envGet at h ⊢
        rw [List.find?_cons_of_neg _ (by simp [hqk])] at h
        exact h
      simp [List.any_cons, hqk, ih hrest]
    · simp [List.any_cons, hqk]

/-- Assigning `env[k] = v` when `env[k]` is already `v` leaves the object
unchanged (keys of the representation are unique). -/
theorem envSet_get_self (env : Env) (k v : String)
    (hnd : (env.map Prod.fst).Nodup) (h : envGet env k = some v) :
    envSet env k v = env := by
  unfold envSet
  rw [if_pos (envGet_some_any env k v h)]
  induction env with
  | nil => simp [envGet] at h
  | cons p rest ih =>
    rw [List.map_cons, List.nodup_cons] at hnd
    cases hpk : p.1 == k
    · have hrest : envGet rest k = some v := by
        unfold envGet at h ⊢
        rw [List.find?_cons_of_neg _ (by simp [hpk])] at h
        exact h
      rw [List.map_cons, hpk]
      simp only [Bool.false_eq_true, if_false]
      rw [ih hnd.2 hrest]
    · have hk : p.1 = k := by simpa using hpk
      have hv : p.2 = v := by
        unfold envGet at h
        have hfind : List.find? (fun q => q.1 == k) (p :: rest) = some p :=
          List.find?_cons_of_pos rest hpk
        rw [hfind] at h
        simpa using h
      rw [List.map_cons, hpk]
      simp only [if_true]
      have hfst : (k, v) = p := by
        obtain ⟨p1, p2⟩ := p
        simp only [Prod.mk.injEq]
        exact ⟨hk.symm, hv.symm⟩
      rw [hfst]
      congr 1
      refine map_id_of_forall _ _ (fun q hq => ?_)
      have hq1 : q.1 ≠ p.1 := by
        intro he
        exact hnd.1 (he ▸ List.mem_map_of_mem Prod.fst hq)
      rw [if_neg (by simp [hk ▸ hq1])]

/-- Claim C10: in the Add/Update action, when the key already has a
non-empty current value and the operator submits blank input for the
value, the prompt default silently re-applies the current value — the map
is left unchanged and the action reports `updated`; and the
"Value cannot be empty" branch is reachable only when the key's current
value is absent or empty. -/
theorem updateVariable_default_substitution :
    (∀ (env : Env) (keyRaw valRaw : String) (rest : List String) (v : String),
        (env.map Prod.fst).Nodup →
        askAnswer keyRaw "" ≠ "" →
        envGet env (askAnswer keyRaw "") = some v →
        v ≠ "" →
        jsTrimStr valRaw = "" →
        updateVariable env (keyRaw :: valRaw :: rest)
          = some (env, UpdOutcome.updated (askAnswer keyRaw "") v, rest))
    ∧ (∀ (env env2 : Env) (keyRaw valRaw : String) (rest rest2 : List String),
        updateVariable env (keyRaw :: valRaw :: rest)
          = some (env2, UpdOutcome.warnEmptyValue, rest2) →
        (envGet env (askAnswer keyRaw "") = none
         ∨ envGet env (askAnswer keyRaw "") = some "")) := by
  constructor
  · intro env keyRaw valRaw rest v hnd hk hget hv htrim
    simp only [updateVariable, if_neg hk, hget]
    have hcv : jsOrEmpty (some v) = v := by simp [jsOrEmpty, hv]
    rw [hcv]
    have hval : askAnswer valRaw v = v := by simp [askAnswer, htrim]
    rw [hval, if_neg hv, envSet_get_self env _ v hnd hget]
  · intro env env2 keyRaw valRaw rest rest2 h
    simp only [updateVariable] at h
    by_cases hk : askAnswer keyRaw "" = ""
    · rw [if_pos hk] at h
      simp at h
    · rw [if_neg hk] at h
      by_cases hval : askAnswer valRaw (jsOrEmpty (envGet env (askAnswer keyRaw ""))) = ""
      · have hcv : jsOrEmpty (envGet env (askAnswer keyRaw "")) = "" := by
          by_cases ht : jsTrimStr valRaw = ""
          · rw [askAnswer, if_pos ht] at hval
            exact hval
          · rw [askAnswer, if_neg ht] at hval
            exact absurd hval ht
        cases hg : envGet env (askAnswer keyRaw "") with
        | none => exact Or.inl rfl
        | some v =>
          rw [hg] at hcv
          by_cases hv : v = ""
          · exact Or.inr (by rw [hv])
          · rw [jsOrEmpty, if_neg hv] at hcv
            exact absurd hcv hv
      · rw [if_neg hval] at h
        simp at h

/-- Witness for the C10 theorem: key `PORT` holds `5000`, the operator
submits whitespace, and the entry is rewritten unchanged. -/
theorem updateVariable_default_substitution_witness :
    ((([("PORT", "5000")] : Env).map Prod.fst).Nodup
     ∧ askAnswer "PORT" "" ≠ ""
     ∧ envGet [("PORT", "5000")] (askAnswer "PORT" "") = some "5000"
     ∧ ("5000" : String) ≠ ""
     ∧ jsTrimStr "   " = "")
    ∧ updateVariable [("PORT", "5000")] ["PORT", "   "]
        = some ([("PORT", "5000")], UpdOutcome.updated (askAnswer "PORT" "") "5000", []) :=
  ⟨⟨by decide, by decide, by decide, by decide, by decide⟩,
   updateVariable_default_substitution.1 [("PORT", "5000")] "PORT" "   " [] "5000"
     (by decide) (by decide) (by decide) (by decide) (by decide)⟩

/-!
## Connection-descriptor resolution (claim C7)
-/

/-- Claim C7: with a truthy `DATABASE_URL` that parses, `getDbConfig`
builds the descriptor from the URL parts alone (the five discrete `./env`
fields do not appear in the result, which is the URL-over-discrete
precedence); the port falls back to the number `5432` when the URL
specifies none; and in every returned descriptor — URL branch or discrete
branch — TLS is enabled exactly when `NODE_ENV` is `production`. -/
theorem getDbConfig_url_precedence :
    (∀ (pe : ProcEnv) (em : EnvModule) (parseURL : String → Option UrlParts)
        (s : String) (url : UrlParts),
        pe.databaseUrl = some s → s ≠ "" → parseURL s = some url →
        getDbConfig pe em parseURL =
          some { user := url.username, password := url.password, host := url.hostname,
                 port := jsOrNum url.port 5432,
                 database := stripLeadingSlash url.pathname,
                 ssl := isProduction pe })
    ∧ (∀ (pe : ProcEnv) (em : EnvModule) (parseURL : String → Option UrlParts)
        (s : String) (url : UrlParts),
        pe.databaseUrl = some s → s ≠ "" → parseURL s = some url → url.port = "" →
        getDbConfig pe em parseURL =
          some { user := url.username, password := url.password, host := url.hostname,
                 port := JsVal.num 5432,
                 database := stripLeadingSlash url.pathname,
                 ssl := isProduction pe })
    ∧ (∀ (pe : ProcEnv) (em : EnvModule) (parseURL : String → Option UrlParts)
        (cfg : DbConfig),
        getDbConfig pe em parseURL = some cfg →
        (cfg.ssl = true ↔ pe.nodeEnv = some "production")) := by
  have hmain : ∀ (pe : ProcEnv) (em : EnvModule) (parseURL : String → Option UrlParts)
      (s : String) (url : UrlParts),
      pe.databaseUrl = some s → s ≠ "" → parseURL s = some url →
      getDbConfig pe em parseURL =
        some { user := url.username, password := url.password, host := url.hostname,
               port := jsOrNum url.port 5432,
               database := stripLeadingSlash url.pathname,
               ssl := isProduction pe } := by
    intro pe em parseURL s url hdb hs hp
    obtain ⟨du, ne⟩ := pe
    cases hdb
    simp only [getDbConfig]
    rw [if_neg hs, hp]
  refine ⟨hmain, ?_, ?_⟩
  · intro pe em parseURL s url hdb hs hp hport
    have h := hmain pe em parseURL s url hdb hs hp
    rw [hport] at h
    simpa [jsOrNum] using h
  · intro pe em parseURL cfg h
    obtain ⟨du, ne⟩ := pe
    have hssl : cfg.ssl = isProduction ⟨du, ne⟩ := by
      cases du with
      | none =>
        simp only [getDbConfig] at h
        injection h with h1
        rw [← h1]
        rfl
      | some s =>
        simp only [getDbConfig] at h
        by_cases hs : s = ""
        · rw [if_pos hs] at h
          injection h with h1
          rw [← h1]
          rfl
        · rw [if_neg hs] at h
          cases hp : parseURL s with
          | none => rw [hp] at h; cases h
          | some url =>
            rw [hp] at h
            injection h with h1
            rw [← h1]
    rw [hssl]
    simp [isProduction]

/-- Witness for claim C7: a concrete URL-form environment with no port in
the URL and `NODE_ENV=production`. -/
theorem getDbConfig_url_precedence_witness :
    ((⟨some "postgres://u:p@h/db", some "production"⟩ : ProcEnv).databaseUrl
        = some "postgres://u:p@h/db"
     ∧ ("postgres://u:p@h/db" : String) ≠ ""
     ∧ (⟨"u", "p", "h", "", "/db"⟩ : UrlParts).port = "")
    ∧ getDbConfig ⟨some "postgres://u:p@h/db", some "production"⟩
        ⟨"pgu", "localhost", "meetcute", "pgpw", "5433"⟩
        (fun t => if t = "postgres://u:p@h/db"
                  then some ⟨"u", "p", "h", "", "/db"⟩ else none)
        = some { user := "u", password := "p", host := "h",
                 port := JsVal.num 5432,
                 database := stripLeadingSlash "/db",
                 ssl := isProduction ⟨some "postgres://u:p@h/db", some "production"⟩ } :=
  ⟨⟨rfl, by decide, rfl⟩,
   getDbConfig_url_precedence.2.1
     ⟨some "postgres://u:p@h/db", some "production"⟩
     ⟨"pgu", "localhost", "meetcute", "pgpw", "5433"⟩
     (fun t => if t = "postgres://u:p@h/db"
               then some ⟨"u", "p", "h", "", "/db"⟩ else none)
     "postgres://u:p@h/db" ⟨"u", "p", "h", "", "/db"⟩
     rfl (by decide) (by decide) rfl⟩

/-!
## Masking in the Listing view (claim C8)
-/

theorem listEntryLine_congr (p q : String × String)
    (h1 : p.1 = q.1) (h2 : isSensitive p.1 = false → p.2 = q.2) :
    listEntryLine p = listEntryLine q := by
  unfold listEntryLine
  rw [h1]
  by_cases hs : isSensitive q.1
  · rw [if_pos hs, if_pos hs]
  · have hs' : isSensitive q.1 = false := by
      cases h : isSensitive q.1
      · rfl
      · exact absurd h hs
    rw [if_neg hs, if_neg hs, h2 (h1 ▸ hs')]

theorem forall2_map_listEntryLine (env₁ env₂ : Env)
    (h : List.Forall₂
      (fun p q => p.1 = q.1 ∧ (isSensitive p.1 = false → p.2 = q.2)) env₁ env₂) :
    env₁.map listEntryLine = env₂.map listEntryLine := by
  induction h with
  | nil => rfl
  | cons hpq _ ih =>
    rw [List.map_cons, List.map_cons, listEntryLine_congr _ _ hpq.1 hpq.2, ih]

/-- Claim C8: the Listing view renders a sensitive key's value as exactly
the fixed eight-character token `********` regardless of the stored value
— so two maps with the same keys in the same order that agree on all
non-sensitive values produce identical Listing output — while a
non-sensitive value is shown verbatim. -/
theorem listVariables_masking :
    (∀ env₁ env₂ : Env,
        List.Forall₂
          (fun p q => p.1 = q.1 ∧ (isSensitive p.1 = false → p.2 = q.2)) env₁ env₂ →
        listVariablesOutput env₁ = listVariablesOutput env₂)
    ∧ (∀ k v, isSensitive k = true →
        listEntryLine (k, v) = "  " ++ k ++ "=" ++ "********")
    ∧ (∀ k v, isSensitive k = false →
        listEntryLine (k, v) = "  " ++ k ++ "=" ++ v) := by
  refine ⟨?_, ?_, ?_⟩
  · intro env₁ env₂ hrel
    unfold listVariablesOutput
    cases hrel with
    | nil => rfl
    | cons hpq hrest =>
      simp only [List.isEmpty_cons]
      rw [forall2_map_listEntryLine _ _ (List.Forall₂.cons hpq hrest)]
  · intro k v hs
    unfold listEntryLine
    rw [if_pos (by rw [hs])]
    rfl
  · intro k v hs
    unfold listEntryLine
    rw [if_neg (by rw [hs]; exact Bool.false_ne_true)]

/-- Witness for claim C8: two maps that differ only in the value stored
under the sensitive key `DB_PASSWORD` render identical Listing output. -/
theorem listVariables_masking_witness :
    listVariablesOutput [("DB_PASSWORD", "hunter2"), ("PORT", "5000")]
      = listVariablesOutput
          [("DB_PASSWORD", "a-completely-different-value"), ("PORT", "5000")] :=
  listVariables_masking.1 _ _
    (List.Forall₂.cons ⟨rfl, fun h => absurd h (by decide)⟩
      (List.Forall₂.cons ⟨rfl, fun _ => rfl⟩ List.Forall₂.nil))

/-!
## Menu session save/exit behaviour (claim C9)
-/

/-- A menu iteration that returns an exit record was produced by choice
`s` (with save requested) or by choice `q` (without): no other choice
exits the loop. -/
theorem showMenu_exit_choices (env : Env) (ex : Option String)
    (inputs : List String) (step : MenuStep)
    (h : showMenu env ex inputs = some step) (he : step.exit = true) :
    (step.save = true ∧ step.choice = "s")
    ∨ (step.save = false ∧ step.choice = "q") := by
  cases inputs with
  | nil => simp [showMenu] at h
  | cons c rest =>
    simp only [showMenu] at h
    by_cases h1 : askAnswer c "" = "s"
    · rw [if_pos h1] at h
      injection h with h'
      subst h'
      exact Or.inl ⟨rfl, h1⟩
    · rw [if_neg h1] at h
      by_cases h2 : askAnswer c "" = "q"
      · rw [if_pos h2] at h
        injection h with h'
        subst h'
        exact Or.inr ⟨rfl, h2⟩
      · rw [if_neg h2] at h
        exfalso
        by_cases h3 : askAnswer c "" = "1"
        · rw [if_pos h3] at h
          injection h with h'
          subst h'
          exact Bool.false_ne_true he
        · rw [if_neg h3] at h
          by_cases h4 : askAnswer c "" = "2"
          · rw [if_pos h4] at h
            cases hu : updateVariable env rest with
            | none => rw [hu] at h; cases h
            | some r =>
              rw [hu] at h
              simp only [Option.map_some'] at h
              injection h with h'
              subst h'
              exact Bool.false_ne_true he
          · rw [if_neg h4] at h
            by_cases h5 : askAnswer c "" = "3"
            · rw [if_pos h5] at h
              cases hu : removeVariable env rest with
              | none => rw [hu] at h; cases h
              | some r =>
                rw [hu] at h
                simp only [Option.map_some'] at h
                injection h with h'
                subst h'
                exact Bool.false_ne_true he
            · rw [if_neg h5] at h
              by_cases h6 : askAnswer c "" = "4"
              · rw [if_pos h6] at h
                injection h with h'
                subst h'
                exact Bool.false_ne_true he
              · rw [if_neg h6] at h
                by_cases h7 : askAnswer c "" = "5"
                · rw [if_pos h7] at h
                  injection h with h'
                  subst h'
                  exact Bool.false_ne_true he
                · rw [if_neg h7] at h
                  by_cases h8 : askAnswer c "" = "6"
                  · rw [if_pos h8] at h
                    injection h with h'
                    subst h'
                    exact Bool.false_ne_true he
                  · rw [if_neg h8] at h
                    injection h with h'
                    subst h'
                    exact Bool.false_ne_true he

/-- Claim C9: a completed menu session invokes `saveEnv` exactly when the
terminating choice is `s`; when the terminating choice is `q`, the
on-disk configuration file is exactly what it was before the session,
whatever in-memory mutations the intervening actions performed. -/
theorem runSession_save_iff :
    ∀ (fuel : Nat) (env : Env) (disk exampleFile : Option String)
      (inputs : List String) (r : SessionResult),
      runSession fuel env disk exampleFile inputs = some r →
      ((SessionEvent.saveEnvCall ∈ r.events ↔ r.exitChoice = "s")
       ∧ (r.exitChoice = "q" → r.disk = disk)) := by
  intro fuel
  induction fuel with
  | zero =>
    intro env disk ex inputs r h
    simp [runSession] at h
  | succ n ih =>
    intro env disk ex inputs r h
    rw [runSession] at h
    cases hm : showMenu env ex inputs with
    | none => rw [hm] at h; cases h
    | some step =>
      rw [hm] at h
      dsimp only at h
      by_cases he : step.exit
      · rw [if_pos he] at h
        rcases showMenu_exit_choices env ex inputs step hm he with ⟨hs, hc⟩ | ⟨hs, hc⟩
        · rw [if_pos hs] at h
          injection h with h'
          subst h'
          refine ⟨⟨?_, ?_⟩, ?_⟩
          · intro _; exact hc
          · intro _; exact List.mem_cons_self _ _
          · intro hq
            dsimp only at hq
            rw [hc] at hq
            exact absurd hq (by decide)
        · rw [if_neg (by rw [hs]; exact Bool.false_ne_true)] at h
          injection h with h'
          subst h'
          refine ⟨⟨?_, ?_⟩, ?_⟩
          · intro hmem
            exact absurd hmem (by simp)
          · intro hcs
            dsimp only at hcs
            rw [hc] at hcs
            exact absurd hcs (by decide)
          · intro _; rfl
      · rw [if_neg he] at h
        exact ih step.env disk ex step.rest r h

/-- Witness for claim C9: the operator updates `PORT` to `6000` and then
chooses `q`; the session completes, no save event occurs, and the on-disk
content is unchanged. -/
theorem runSession_save_iff_witness :
    runSession 4 [("PORT", "5000")] (some "PORT=5000\n") none
        ["2", "PORT", "6000", "q"]
      = some ⟨[("PORT", "6000")], some "PORT=5000\n",
              [SessionEvent.readlineClose], "q"⟩
    ∧ ((SessionEvent.saveEnvCall
          ∈ (⟨[("PORT", "6000")], some "PORT=5000\n",
              [SessionEvent.readlineClose], "q"⟩ : SessionResult).events
        ↔ (⟨[("PORT", "6000")], some "PORT=5000\n",
            [SessionEvent.readlineClose], "q"⟩ : SessionResult).exitChoice = "s")
       ∧ ((⟨[("PORT", "6000")], some "PORT=5000\n",
            [SessionEvent.readlineClose], "q"⟩ : SessionResult).exitChoice = "q" →
          (⟨[("PORT", "6000")], some "PORT=5000\n",
            [SessionEvent.readlineClose], "q"⟩ : SessionResult).disk
            = some "PORT=5000\n")) :=
  ⟨by decide,
   runSession_save_iff 4 [("PORT", "5000")] (some "PORT=5000\n") none
     ["2", "PORT", "6000", "q"] _ (by decide)⟩

/-!
## Serialization round trip (claim C5)
-/

theorem validKeyChars_spec (l : List Char) (h : validKeyChars l = true) :
    ∃ c cs, l = c :: cs ∧ jsWhitespace c = false ∧ c ≠ '#'
      ∧ '=' ∉ l ∧ '\n' ∉ l := by
  cases l with
  | nil => simp [validKeyChars] at h
  | cons c cs =>
    simp only [validKeyChars, Bool.and_eq_true, Bool.not_eq_true',
      decide_eq_true_eq, List.contains, List.elem_eq_mem,
      decide_eq_false_iff_not] at h
    exact ⟨c, cs, rfl, h.1.1.1, h.1.1.2, h.1.2, h.2⟩

theorem jsTrim_key_value_line (k v : List Char)
    (hk : validKeyChars k = true) (hv : jsTrim v = v) :
    jsTrim (k ++ '=' :: v) = k ++ '=' :: v := by
  obtain ⟨c, cs, rfl, hcw, _, _, _⟩ := validKeyChars_spec k hk
  have h1 : ((c :: cs) ++ '=' :: v).dropWhile jsWhitespace = (c :: cs) ++ '=' :: v := by
    rw [List.cons_append]
    exact dropWhile_cons_of_neg _ _ _ hcw
  have hrev : ((c :: cs) ++ '=' :: v).reverse
      = v.reverse ++ '=' :: (c :: cs).reverse := by
    rw [List.reverse_append, List.reverse_cons, List.append_assoc,
      List.singleton_append]
  have h2 : ((c :: cs) ++ '=' :: v).reverse.dropWhile jsWhitespace
      = ((c :: cs) ++ '=' :: v).reverse := by
    rw [hrev]
    cases v with
    | nil =>
      simp only [List.reverse_nil, List.nil_append]
      exact dropWhile_cons_of_neg _ _ _ (by decide)
    | cons d ds =>
      refine dropWhile_append_of_stable _ _ _ (by simp) ?_
      exact (jsTrim_eq_self_parts (d :: ds) hv).2
  unfold jsTrim
  rw [h1, h2, List.reverse_reverse]

theorem jsStartsWith_hash_false (c : Char) (l : List Char) (hch : c ≠ '#') :
    jsStartsWith ['#'] (c :: l) = false := by
  simp only [jsStartsWith, Bool.and_eq_false_iff, decide_eq_false_iff_not]
  exact Or.inl (fun h => hch h.symm)

/-- A well-formed `KEY=VALUE` line parses back to exactly the assignment
`env[KEY] = VALUE`. -/
theorem parseEnvLine_wf (env : Env) (k v : String)
    (hk : validKeyChars k.data = true) (hv : jsTrim v.data = v.data) :
    parseEnvLine env (k.data ++ '=' :: v.data) = envSet env k v := by
  obtain ⟨c, cs, hd, hcw, hch, hne, _⟩ := validKeyChars_spec k.data hk
  have htr : jsTrim (k.data ++ '=' :: v.data) = k.data ++ '=' :: v.data :=
    jsTrim_key_value_line k.data v.data hk hv
  have hnnil : k.data ++ '=' :: v.data ≠ [] := by rw [hd]; simp
  have hhash : jsStartsWith ['#'] (k.data ++ '=' :: v.data) = false := by
    rw [hd, List.cons_append]
    exact jsStartsWith_hash_false _ _ hch
  have hsplit : splitOnChar (k.data ++ '=' :: v.data) '='
      = k.data :: splitOnChar v.data '=' :=
    splitOnChar_append_cons _ _ _ hne
  simp only [parseEnvLine]
  rw [htr, if_neg hnnil, if_neg (by rw [hhash]; exact Bool.false_ne_true), hsplit]
  show (if k.data = [] then env
        else envSet env ⟨k.data⟩ ⟨jsTrim (joinChar '=' (splitOnChar v.data '='))⟩)
      = envSet env k v
  rw [joinChar_splitOnChar, hv, if_neg (by rw [hd]; simp)]

theorem envSet_fresh_append (env : Env) (k v : String)
    (h : ∀ q ∈ env, q.1 ≠ k) :
    envSet env k v = env ++ [(k, v)] := by
  unfold envSet
  rw [if_neg ?hc]
  case hc =>
    intro hany
    obtain ⟨q, hq, hbeq⟩ := List.any_eq_true.mp hany
    exact h q hq (by simpa using hbeq)

theorem parse_lines_foldl :
    ∀ (m : Env) (acc : Env),
      (∀ p ∈ m, validKeyChars p.1.data = true) →
      (∀ p ∈ m, jsTrim p.2.data = p.2.data) →
      (m.map Prod.fst).Nodup →
      (∀ p ∈ m, ∀ q ∈ acc, q.1 ≠ p.1) →
      List.foldl parseEnvLine acc
        (m.map (fun p => p.1.data ++ '=' :: p.2.data)) = acc ++ m := by
  intro m
  induction m with
  | nil => intro acc _ _ _ _; simp
  | cons p m' ih =>
    intro acc hk hv hnd hfresh
    rw [List.map_cons] at hnd
    have hnotin : p.1 ∉ m'.map Prod.fst := (List.nodup_cons.mp hnd).1
    rw [List.map_cons, List.foldl_cons,
      parseEnvLine_wf acc p.1 p.2 (hk p (List.mem_cons_self p m'))
        (hv p (List.mem_cons_self p m')),
      envSet_fresh_append acc p.1 p.2
        (fun q hq => hfresh p (List.mem_cons_self p m') q hq)]
    rw [ih (acc ++ [p])
      (fun q hq => hk q (List.mem_cons_of_mem p hq))
      (fun q hq => hv q (List.mem_cons_of_mem p hq))
      (List.nodup_cons.mp hnd).2
      ?hfresh2]
    · rw [List.append_assoc]
      rfl
    case hfresh2 =>
      intro a ha q hq
      rcases List.mem_append.mp hq with h1 | h2
      · exact hfresh a (List.mem_cons_of_mem p ha) q h1
      · rw [List.mem_singleton.mp h2]
        intro he
        exact hnotin (he ▸ List.mem_map_of_mem Prod.fst ha)

theorem splitOnChar_join_sep :
    ∀ (ls : List (List Char)) (sep : Char), ls ≠ [] → (∀ l ∈ ls, sep ∉ l) →
      splitOnChar (joinChar sep ls ++ [sep]) sep = ls ++ [[]] := by
  intro ls
  induction ls with
  | nil => intro sep h _; exact absurd rfl h
  | cons l ls' ih =>
    intro sep _ hmem
    cases ls' with
    | nil =>
      show splitOnChar (l ++ [sep]) sep = [l, []]
      have h := splitOnChar_append_cons l [] sep (hmem l (List.mem_cons_self l []))
      simpa using h
    | cons l2 ls'' =>
      rw [joinChar_cons_cons, List.append_assoc, List.cons_append,
        splitOnChar_append_cons _ _ _ (hmem l (List.mem_cons_self _ _)),
        ih sep (by simp) (fun x hx => hmem x (List.mem_cons_of_mem _ hx))]
      rfl

/-- Claim C5's counterexample: the map with the single key `" A"` meets
the claim's stated validity condition (non-empty key, no `=`, no leading
`#`; newline-free, trim-invariant value), yet serializing and re-parsing
trims the key's leading space, producing a different map. -/
theorem roundtrip_leading_whitespace_key_cex :
    (claimValidKey " A" = true ∧ claimValidValue "1" = true
     ∧ (([(" A", "1")] : Env).map Prod.fst).Nodup)
    ∧ parseEnvFile (stringifyEnv [(" A", "1")]) ≠ [(" A", "1")]
    ∧ parseEnvFile (stringifyEnv [(" A", "1")]) = [("A", "1")] := by
  refine ⟨⟨by decide, by decide, by decide⟩, by decide, by decide⟩

/-- Claim C5 amended: the round trip
`parseEnvFile (stringifyEnv m) = m` holds for maps with unique keys once
the key condition is strengthened (as the counterexample forces) to also
exclude newlines inside keys and leading whitespace on keys; values need
exactly the claim's condition (no newline, no surrounding whitespace). -/
theorem parse_stringify_roundtrip :
    ∀ m : Env,
      (m.map Prod.fst).Nodup →
      (∀ p ∈ m, validKeyChars p.1.data = true) →
      (∀ p ∈ m, claimValidValue p.2 = true) →
      parseEnvFile (stringifyEnv m) = m := by
  intro m hnd hk hv
  have hvparts : ∀ p ∈ m, '\n' ∉ p.2.data ∧ jsTrim p.2.data = p.2.data := by
    intro p hp
    have h := hv p hp
    simp only [claimValidValue, Bool.and_eq_true, Bool.not_eq_true',
      List.contains, List.elem_eq_mem, decide_eq_false_iff_not,
      beq_iff_eq] at h
    exact h
  cases m with
  | nil => decide
  | cons p m' =>
    have hlines_ne :
        ((p :: m').map (fun q => q.1.data ++ '=' :: q.2.data)) ≠ [] := by simp
    have hnl : ∀ l ∈ (p :: m').map (fun q => q.1.data ++ '=' :: q.2.data),
        '\n' ∉ l := by
      intro l hl
      obtain ⟨q, hq, rfl⟩ := List.mem_map.mp hl
      intro hmem
      rcases List.mem_append.mp hmem with h1 | h2
      · obtain ⟨c, cs, hd, _, _, _, hnlk⟩ := validKeyChars_spec q.1.data (hk q hq)
        exact hnlk h1
      · rcases List.mem_cons.mp h2 with h3 | h4
        · exact absurd h3 (by decide)
        · exact (hvparts q hq).1 h4
    have hdata : (stringifyEnv (p :: m')).data
        = joinChar '\n' ((p :: m').map (fun q => q.1.data ++ '=' :: q.2.data))
          ++ ['\n'] := rfl
    unfold parseEnvFile
    rw [hdata, splitOnChar_join_sep _ '\n' hlines_ne hnl, List.foldl_append,
      parse_lines_foldl (p :: m') [] hk (fun q hq => (hvparts q hq).2) hnd
        (fun a _ q hq => absurd hq (List.not_mem_nil q))]
    simp only [List.nil_append, List.foldl_cons, List.foldl_nil]
    rfl

/-- Witness for the amended C5 theorem at a concrete two-entry map. -/
theorem parse_stringify_roundtrip_witness :
    ((([("NODE_ENV", "production"), ("DB_PASSWORD", "s3cret")] : Env).map
        Prod.fst).Nodup
     ∧ (∀ p ∈ ([("NODE_ENV", "production"), ("DB_PASSWORD", "s3cret")] : Env),
          validKeyChars p.1.data = true)
     ∧ (∀ p ∈ ([("NODE_ENV", "production"), ("DB_PASSWORD", "s3cret")] : Env),
          claimValidValue p.2 = true))
    ∧ parseEnvFile
        (stringifyEnv [("NODE_ENV", "production"), ("DB_PASSWORD", "s3cret")])
        = [("NODE_ENV", "production"), ("DB_PASSWORD", "s3cret")] :=
  ⟨⟨by decide, by decide, by decide⟩,
   parse_stringify_roundtrip [("NODE_ENV", "production"), ("DB_PASSWORD", "s3cret")]
     (by decide) (by decide) (by decide)⟩

end MeetCute
